import Mathlib

/-!
# MeaningOfLife.c

A shallow embedding of `test files/MeaningOfLife.c`:

* `int` is a 32-bit two's-complement integer, carried as an `Int` in
  `[INT_MIN, INT_MAX]`; `+` and `-` on `int` reduce modulo `2^32`
  (`wrap32`), which is what the usual targets compute where ISO C leaves
  signed overflow undefined.  `addOverflows` records whether an addition
  left the range.
* The globals (`N`) and the text written to standard output form a `World`
  that every function receives and returns.
* `Calculate` is the source loop, state for state; `main` is the driver,
  with `/` guarded (`divInt`) so that a zero divisor is an explicit fault.
-/

namespace MeaningOfLife

/-! ## Machine integers -/

/-- Largest value of a 32-bit `int`. -/
def INT_MAX : Int := 2147483647

/-- Smallest value of a 32-bit `int`. -/
def INT_MIN : Int := -2147483648

/-- Values an `int` object can hold. -/
def InRange (x : Int) : Prop := INT_MIN ≤ x ∧ x ≤ INT_MAX

instance (x : Int) : Decidable (InRange x) := by
  unfold InRange; infer_instance

/-- Reduction of a mathematical integer to the 32-bit two's-complement value
with the same residue modulo `2^32`. -/
def wrap32 (x : Int) : Int := (x + 2147483648) % 4294967296 - 2147483648

/-- The `int` addition `a + b`. -/
def addInt (a b : Int) : Int := wrap32 (a + b)

/-- The `int` subtraction `a - b`. -/
def subInt (a b : Int) : Int := wrap32 (a - b)

/-- Whether the exact sum `a + b` falls outside the range of `int`
(signed overflow). -/
def addOverflows (a b : Int) : Bool := decide (a + b < INT_MIN) || decide (INT_MAX < a + b)

/-! ## Program state -/

/-- The global `int N` and the text written to standard output so far. -/
structure World where
  N : Int
  stdout : String
  deriving DecidableEq, Repr

/-- State at program start: `N` has static storage, hence is zero, and
nothing has been written. -/
def initWorld : World := { N := 0, stdout := "" }

/-- Ways a run can end abnormally.  `inputError` and the arithmetic faults are
the two classes of the error taxonomy; the source has no statement that
produces `inputError`. -/
inductive Fault where
  | inputError
  | divisionByZero
  | divisionOverflow
  deriving DecidableEq, Repr

/-- Result of running `main`: the final world and the fault, if any. -/
structure Outcome where
  world : World
  fault : Option Fault
  deriving DecidableEq, Repr

/-! ## `Calculate` -/

/-- An activation of `Calculate`: the world it runs in and its two locals,
`res` and the parameter `cnt`. -/
structure Frame where
  world : World
  res : Int
  cnt : Int
  deriving DecidableEq, Repr

/-- The guard `cnt > 0` of the `while` loop. -/
def loopGuard (s : Frame) : Bool := decide (s.cnt > 0)

/-- The loop body: `res = res + 42; cnt = cnt - 1;`. -/
def loopBody (s : Frame) : Frame :=
  { s with res := addInt s.res 42, cnt := subInt s.cnt 1 }

/-- The loop `while (cnt > 0) { res = res + 42; cnt = cnt - 1; }`.
It is a total function: `cnt` decreases at every iteration. -/
def whileLoop (s : Frame) : Frame :=
  if loopGuard s = true then whileLoop (loopBody s) else s
termination_by s.cnt.toNat
decreasing_by
  rename_i h
  simp only [loopGuard, decide_eq_true_eq] at h
  simp only [loopBody, subInt, wrap32]
  omega

/-- The frame of `Calculate(cnt)` on entry to the loop, after `res = 0`. -/
def entryFrame (cnt : Int) (w : World) : Frame :=
  { world := w, res := 0, cnt := cnt }

/-- `int Calculate(int cnt)`: `res = 0`, the loop, `return res`.  Returns the
value and the world after the call. -/
def Calculate (cnt : Int) (w : World) : Int × World :=
  let s := whileLoop (entryFrame cnt w)
  (s.res, s.world)

/-- The relation between the loop variables and the initial count `n` that
the loop is meant to maintain: `res + 42 * cnt = 42 * n` and `0 ≤ cnt ≤ n`. -/
def loopInv (n : Int) (s : Frame) : Prop :=
  s.res + 42 * s.cnt = 42 * n ∧ 0 ≤ s.cnt ∧ s.cnt ≤ n

instance (n : Int) (s : Frame) : Decidable (loopInv n s) := by
  unfold loopInv; infer_instance

/-- No addition `res + 42` overflows in the first `n` iterations of the loop
of `Calculate(n)`. -/
def overflowFree (n : Int) (w : World) : Prop :=
  ∀ j : Nat, j < n.toNat → addOverflows (loopBody^[j] (entryFrame n w)).res 42 = false

instance (n : Int) (w : World) : Decidable (overflowFree n w) := by
  unfold overflowFree; infer_instance

/-! ## Standard input and output -/

/-- White space of the C locale: space, `\t`, `\n`, `\v`, `\f`, `\r`. -/
def isSpaceC (c : Char) : Bool :=
  c.toNat == 32 || (decide (9 ≤ c.toNat) && decide (c.toNat ≤ 13))

/-- Value of a run of decimal digits, most significant first. -/
def digitsValue (ds : List Char) : Nat :=
  ds.foldl (fun acc c => 10 * acc + (c.toNat - 48)) 0

/-- The digits at the head of `cs` converted to an `int` with sign `neg`;
`none` when `cs` does not start with a digit. -/
def scanDigits (neg : Bool) (cs : List Char) : Option Int :=
  match cs.takeWhile Char.isDigit with
  | [] => none
  | d :: ds =>
    let v : Int := (digitsValue (d :: ds) : Nat)
    some (wrap32 (if neg then -v else v))

/-- The conversion `%d` of `scanf` on the text `input`: skip white space,
accept an optional sign and then at least one decimal digit.  `some v` is a
successful conversion storing `v`; `none` is a matching failure or end of
input.  A value outside `int` is reduced modulo `2^32`. -/
def scanInt (input : List Char) : Option Int :=
  match input.dropWhile isSpaceC with
  | [] => none
  | c :: cs =>
    if c = '-' then scanDigits true cs
    else if c = '+' then scanDigits false cs
    else scanDigits false (c :: cs)

/-- The call `printf(s)` with a format `s` free of conversions. -/
def printf (s : String) (w : World) : World :=
  { w with stdout := w.stdout ++ s }

/-- The statement `read(N)`, that is `scanf("%d",&N)`, with its return value
discarded: `N` is assigned on a successful conversion and left as it is
otherwise. -/
def readN (input : List Char) (w : World) : World :=
  match scanInt input with
  | some v => { w with N := v }
  | none => w

/-- The statement `write(x)`, that is `printf("%d\n",x)`. -/
def write (x : Int) (w : World) : World :=
  { w with stdout := w.stdout ++ toString x ++ "\n" }

/-- The `int` division `a / b`, guarded: a zero divisor and the quotient
`INT_MIN / -1` are faults; otherwise the quotient truncates toward zero. -/
def divInt (a b : Int) : Except Fault Int :=
  if b = 0 then .error .divisionByZero
  else if a = INT_MIN ∧ b = -1 then .error .divisionOverflow
  else .ok (Int.tdiv a b)

/-! ## `main` -/

/-- The first prompt. -/
def prompt1 : String := "Magic positive number is "

/-- The second prompt. -/
def prompt2 : String := "The meaning of Life is "

/-- `int main(void)` run on the text `input` of standard input. -/
def main (input : List Char) : Outcome :=
  let w1 := printf prompt1 initWorld
  let w2 := readN input w1
  let w3 := printf prompt2 w2
  let (c, w4) := Calculate w3.N w3
  match divInt c w4.N with
  | .error f => { world := w4, fault := some f }
  | .ok res => { world := write res w4, fault := none }

/-! ## Machine arithmetic -/

theorem wrap32_of_inRange {x : Int} (h : InRange x) : wrap32 x = x := by
  unfold InRange INT_MIN INT_MAX at h
  unfold wrap32
  omega

theorem inRange_wrap32 (x : Int) : InRange (wrap32 x) := by
  unfold InRange INT_MIN INT_MAX wrap32
  omega

theorem wrap32_wrap32_add (a b : Int) : wrap32 (wrap32 a + b) = wrap32 (a + b) := by
  unfold wrap32
  omega

/-! ## The loop -/

theorem whileLoop_eq (s : Frame) :
    whileLoop s = if loopGuard s = true then whileLoop (loopBody s) else s := by
  rw [whileLoop]

theorem loopBody_cnt (s : Frame) (hpos : 0 < s.cnt) (hc : s.cnt ≤ INT_MAX) :
    (loopBody s).cnt = s.cnt - 1 := by
  simp only [loopBody, subInt]
  apply wrap32_of_inRange
  unfold InRange INT_MIN; unfold INT_MAX at *; omega

theorem whileLoop_world (s : Frame) : (whileLoop s).world = s.world := by
  induction s using whileLoop.induct with
  | case1 s h ih => rw [whileLoop_eq, if_pos h, ih]; rfl
  | case2 s h => rw [whileLoop_eq, if_neg h]

theorem whileLoop_res_congr (s t : Frame) (hr : s.res = t.res) (hc : s.cnt = t.cnt) :
    (whileLoop s).res = (whileLoop t).res := by
  induction s using whileLoop.induct generalizing t with
  | case1 s h ih =>
    have ht : loopGuard t = true := by simpa [loopGuard, hc] using h
    rw [whileLoop_eq s, if_pos h, whileLoop_eq t, if_pos ht]
    exact ih (loopBody t) (by simp [loopBody, hr]) (by simp [loopBody, hc])
  | case2 s h =>
    have ht : ¬ loopGuard t = true := by simpa [loopGuard, hc] using h
    rw [whileLoop_eq s, if_neg h, whileLoop_eq t, if_neg ht, hr]

theorem whileLoop_res_inRange (s : Frame) (hr : InRange s.res) : InRange (whileLoop s).res := by
  induction s using whileLoop.induct with
  | case1 s h ih =>
    rw [whileLoop_eq, if_pos h]
    exact ih (inRange_wrap32 _)
  | case2 s h => rw [whileLoop_eq, if_neg h]; exact hr

/-- After `k ≤ cnt` iterations the body has subtracted `k` from `cnt` and
added `42 * k` to `res` modulo `2^32`. -/
theorem iterate_loopBody (k : Nat) (s : Frame) (hk : (k : Int) ≤ s.cnt) (hc : s.cnt ≤ INT_MAX)
    (hr : InRange s.res) :
    loopBody^[k] s = { world := s.world, res := wrap32 (s.res + 42 * k), cnt := s.cnt - k } := by
  induction k generalizing s with
  | zero => simp [wrap32_of_inRange hr]
  | succ k ih =>
    rw [Function.iterate_succ_apply]
    have hc1 : (loopBody s).cnt = s.cnt - 1 := loopBody_cnt s (by omega) hc
    rw [ih (loopBody s) (by rw [hc1]; omega) (by rw [hc1]; omega) (inRange_wrap32 _)]
    rw [hc1]
    simp only [loopBody, addInt, wrap32_wrap32_add]
    congr 1
    · congr 1; push_cast; ring
    · push_cast; ring

/-- The loop runs the body `cnt` times (no time when `cnt ≤ 0`). -/
theorem whileLoop_eq_iterate (s : Frame) (hc : s.cnt ≤ INT_MAX) :
    whileLoop s = loopBody^[s.cnt.toNat] s := by
  induction s using whileLoop.induct with
  | case1 s h ih =>
    have hpos : 0 < s.cnt := by simpa [loopGuard] using h
    have hc1 : (loopBody s).cnt = s.cnt - 1 := loopBody_cnt s hpos hc
    rw [whileLoop_eq, if_pos h, ih (by rw [hc1]; omega), hc1]
    have : s.cnt.toNat = (s.cnt - 1).toNat + 1 := by omega
    rw [this, Function.iterate_succ_apply]
  | case2 s h =>
    have hle : s.cnt ≤ 0 := by simpa [loopGuard] using h
    rw [whileLoop_eq, if_neg h]
    have : s.cnt.toNat = 0 := by omega
    rw [this]; rfl

theorem inRange_zero : InRange 0 := by decide

/-- The frame of `Calculate(n)` after `j ≤ n` iterations. -/
theorem entryFrame_iterate (n : Int) (w : World) (j : Nat) (hj : (j : Int) ≤ n)
    (hn : n ≤ INT_MAX) :
    loopBody^[j] (entryFrame n w) = { world := w, res := wrap32 (42 * j), cnt := n - j } := by
  have h := iterate_loopBody j (entryFrame n w) hj hn inRange_zero
  simpa [entryFrame] using h

theorem Calculate_snd (n : Int) (w : World) : (Calculate n w).2 = w :=
  whileLoop_world (entryFrame n w)

/-- Value of `Calculate(n)` for an `int` argument: `42 * max(n, 0)` reduced
modulo `2^32`. -/
theorem Calculate_fst (n : Int) (w : World) (hn : n ≤ INT_MAX) :
    (Calculate n w).1 = wrap32 (42 * (n.toNat : Int)) := by
  have h1 : whileLoop (entryFrame n w) = loopBody^[n.toNat] (entryFrame n w) :=
    whileLoop_eq_iterate (entryFrame n w) hn
  by_cases h0 : 0 ≤ n
  · have h2 := entryFrame_iterate n w n.toNat (by omega) hn
    simp only [Calculate, h1, h2]
  · have h3 : n.toNat = 0 := by omega
    simp only [Calculate, h1, h3]
    rfl

theorem Calculate_fst_exact (n : Int) (w : World) (h0 : 0 ≤ n) (h1 : n ≤ 51130563) :
    (Calculate n w).1 = 42 * n := by
  rw [Calculate_fst n w (by unfold INT_MAX; omega)]
  have : ((n.toNat : Nat) : Int) = n := by omega
  rw [this]
  apply wrap32_of_inRange
  unfold InRange INT_MIN INT_MAX; omega

theorem Calculate_fst_nonpos (n : Int) (w : World) (h : n ≤ 0) : (Calculate n w).1 = 0 := by
  rw [Calculate_fst n w (by unfold INT_MAX; omega)]
  have : n.toNat = 0 := by omega
  rw [this]; rfl

/-! ## The driver -/

theorem scanDigits_inRange (neg : Bool) (cs : List Char) (n : Int)
    (h : scanDigits neg cs = some n) : InRange n := by
  unfold scanDigits at h
  split at h
  · cases h
  · simp only [Option.some.injEq] at h
    rw [← h]
    exact inRange_wrap32 _

/-- A converted value is an `int`. -/
theorem scanInt_inRange (input : List Char) (n : Int) (h : scanInt input = some n) :
    InRange n := by
  unfold scanInt at h
  split at h
  · cases h
  · split at h
    · exact scanDigits_inRange _ _ _ h
    · split at h
      · exact scanDigits_inRange _ _ _ h
      · exact scanDigits_inRange _ _ _ h

/-- The division of the driver on a non-zero `int` is not a fault. -/
theorem divInt_Calculate (n : Int) (w : World) (hn : n ≠ 0) :
    divInt (Calculate n w).1 n = .ok (Int.tdiv (Calculate n w).1 n) := by
  unfold divInt
  rw [if_neg hn, if_neg]
  rintro ⟨hc, h1⟩
  rw [Calculate_fst_nonpos n w (by omega)] at hc
  revert hc
  decide

/-- The run of `main` when the conversion stored the non-zero value `n`. -/
theorem main_of_nonzero (input : List Char) (n : Int) (h : scanInt input = some n)
    (hn : n ≠ 0) :
    main input =
      { world := { N := n,
                   stdout := prompt1 ++ prompt2 ++
                     toString (Int.tdiv (Calculate n initWorld).1 n) ++ "\n" },
        fault := none } := by
  have hr := scanInt_inRange input n h
  have hv : ∀ w : World, (Calculate n w).1 = (Calculate n initWorld).1 := fun w => by
    rw [Calculate_fst n w hr.2, Calculate_fst n initWorld hr.2]
  have hC : ∀ w : World, Calculate n w = ((Calculate n initWorld).1, w) := fun w =>
    Prod.ext (hv w) (Calculate_snd n w)
  have hd := divInt_Calculate n initWorld hn
  simp only [main, readN, h, printf, initWorld, String.empty_append]
  rw [hC]
  simp only [hd, write]
  rfl

/-- The run of `main` when `N` is zero at the division: nothing was converted,
or the value `0` was. -/
theorem main_of_zero (input : List Char) (h : scanInt input = none ∨ scanInt input = some 0) :
    main input =
      { world := { N := 0, stdout := prompt1 ++ prompt2 },
        fault := some Fault.divisionByZero } := by
  have hC : ∀ w : World, Calculate 0 w = (0, w) := fun w =>
    Prod.ext (Calculate_fst_nonpos 0 w (le_refl 0)) (Calculate_snd 0 w)
  rcases h with h | h
  · simp only [main, readN, h, printf, initWorld, String.empty_append]
    rw [hC]
    simp [divInt]
  · simp only [main, readN, h, printf, initWorld, String.empty_append]
    rw [hC]
    simp [divInt]

/-! ## The value returned by `Calculate` -/

/-- C1, as stated, fails at the non-negative `int` 51130564: the exact sum
`42 * 51130564 = 2147483688` is above `INT_MAX`, and `Calculate` returns
`-2147483608`. -/
theorem Calculate_51130564_ne_mul :
    (0 : Int) ≤ 51130564 ∧ InRange 51130564 ∧
      (Calculate 51130564 initWorld).1 = -2147483608 ∧
      (Calculate 51130564 initWorld).1 ≠ 42 * 51130564 := by
  have h : (Calculate 51130564 initWorld).1 = -2147483608 := by
    rw [Calculate_fst 51130564 initWorld (by decide)]
    decide
  refine ⟨by decide, by decide, h, ?_⟩
  rw [h]
  decide

/-- C1 (amended): for every count `n` with `0 ≤ n ≤ 51130563`, `Calculate(n)`
returns exactly `42 * n`. -/
theorem Calculate_eq_mul (n : Int) (w : World) (h0 : 0 ≤ n) (h1 : n ≤ 51130563) :
    (Calculate n w).1 = 42 * n :=
  Calculate_fst_exact n w h0 h1

theorem Calculate_eq_mul_witness :
    (0 : Int) ≤ 2 ∧ (2 : Int) ≤ 51130563 ∧ (Calculate 2 initWorld).1 = 42 * 2 :=
  ⟨by decide, by decide, Calculate_eq_mul 2 initWorld (by decide) (by decide)⟩

/-- C2: for every `n ≤ 0` the guard `cnt > 0` is false on entry, the loop
hands back the entry frame untouched (the body never runs), and
`Calculate(n)` returns `0`. -/
theorem Calculate_nonpos (n : Int) (w : World) (h : n ≤ 0) :
    loopGuard (entryFrame n w) = false ∧
      whileLoop (entryFrame n w) = entryFrame n w ∧
      (Calculate n w).1 = 0 := by
  have hg : loopGuard (entryFrame n w) = false := by
    simp only [loopGuard, entryFrame, decide_eq_false_iff_not]
    omega
  have hw : whileLoop (entryFrame n w) = entryFrame n w := by
    rw [whileLoop_eq, hg]
    rfl
  refine ⟨hg, hw, ?_⟩
  simp only [Calculate, hw]
  rfl

theorem Calculate_nonpos_witness :
    (-3 : Int) ≤ 0 ∧ loopGuard (entryFrame (-3) initWorld) = false ∧
      whileLoop (entryFrame (-3) initWorld) = entryFrame (-3) initWorld ∧
      (Calculate (-3) initWorld).1 = 0 :=
  ⟨by decide, Calculate_nonpos (-3) initWorld (by decide)⟩

/-! ## The quotient printed by `main` -/

/-- C3, as stated, fails at the positive `int` 51130564: the driver computes
`-2147483608 / 51130564 = -41` and prints `-41`. -/
theorem main_51130564_prints_neg41 :
    scanInt "51130564".toList = some 51130564 ∧ (0 : Int) < 51130564 ∧
      divInt (Calculate 51130564 initWorld).1 51130564 = .ok (-41) ∧
      main "51130564".toList =
        { world := { N := 51130564,
                     stdout := "Magic positive number is The meaning of Life is -41\n" },
          fault := none } := by
  have hs : scanInt "51130564".toList = some 51130564 := by decide
  have hc : (Calculate 51130564 initWorld).1 = -2147483608 := by
    rw [Calculate_fst 51130564 initWorld (by decide)]
    decide
  refine ⟨hs, by decide, ?_, ?_⟩
  · rw [divInt_Calculate _ _ (by decide), hc]
    rfl
  · rw [main_of_nonzero _ _ hs (by decide), hc]
    decide

/-- C3 (amended): for every positive input `n` up to 51130563, the value the
driver computes, `Calculate(n) / n` with C integer division, is exactly 42,
and the driver prints `42`. -/
theorem main_quotient_42 (input : List Char) (n : Int) (h : scanInt input = some n)
    (h0 : 0 < n) (h1 : n ≤ 51130563) :
    (∀ w : World, divInt (Calculate n w).1 n = .ok 42) ∧
      main input =
        { world := { N := n,
                     stdout := "Magic positive number is The meaning of Life is 42\n" },
          fault := none } := by
  have hn : n ≠ 0 := by omega
  have hq : ∀ w : World, Int.tdiv (Calculate n w).1 n = 42 := fun w => by
    rw [Calculate_fst_exact n w (by omega) h1]
    exact Int.mul_tdiv_cancel 42 hn
  constructor
  · intro w
    rw [divInt_Calculate n w hn, hq w]
  · rw [main_of_nonzero input n h hn, hq initWorld]
    rfl

theorem main_quotient_42_witness :
    scanInt "2".toList = some 2 ∧ (0 : Int) < 2 ∧ (2 : Int) ≤ 51130563 ∧
      ((∀ w : World, divInt (Calculate 2 w).1 2 = .ok 42) ∧
        main "2".toList =
          { world := { N := 2,
                       stdout := "Magic positive number is The meaning of Life is 42\n" },
            fault := none }) :=
  ⟨by decide, by decide, by decide,
    main_quotient_42 "2".toList 2 (by decide) (by decide) (by decide)⟩

/-! ## The text written by `main` -/

/-- C4: for every successfully read non-zero integer `n`, standard output is
the first prompt, immediately followed by the second prompt (no newline in
between), followed by the decimal rendering of `Calculate(n) / n` and one
newline; for the input `1` the text is
`Magic positive number is The meaning of Life is 42` and a newline. -/
theorem main_stdout (input : List Char) (n : Int) (h : scanInt input = some n)
    (hn : n ≠ 0) :
    (main input).world.stdout =
        "Magic positive number is " ++ "The meaning of Life is " ++
          toString (Int.tdiv (Calculate n initWorld).1 n) ++ "\n" ∧
      (main "1".toList).world.stdout =
        "Magic positive number is The meaning of Life is 42\n" := by
  constructor
  · rw [main_of_nonzero input n h hn]
    rfl
  · have h1 : scanInt "1".toList = some 1 := by decide
    have hc : (Calculate 1 initWorld).1 = 42 * 1 :=
      Calculate_fst_exact 1 initWorld (by decide) (by decide)
    rw [main_of_nonzero _ 1 h1 (by decide), hc]
    decide

theorem main_stdout_witness :
    scanInt "-7".toList = some (-7) ∧ (-7 : Int) ≠ 0 ∧
      ((main "-7".toList).world.stdout =
          "Magic positive number is " ++ "The meaning of Life is " ++
            toString (Int.tdiv (Calculate (-7) initWorld).1 (-7)) ++ "\n" ∧
        (main "1".toList).world.stdout =
          "Magic positive number is The meaning of Life is 42\n") :=
  ⟨by decide, by decide, main_stdout "-7".toList (-7) (by decide) (by decide)⟩

/-! ## Faults of `main` -/

/-- C5: with the division guarded, the driver ends in the division-by-zero
fault, having written the two prompts and no integer, if and only if the
integer read is `0`; for every non-zero integer read it ends without a
fault, having written the quotient after the prompts. -/
theorem main_fault_iff_zero (input : List Char) (n : Int) (h : scanInt input = some n) :
    (((main input).fault = some Fault.divisionByZero ∧
        (main input).world.stdout =
          "Magic positive number is The meaning of Life is ") ↔ n = 0) ∧
      ((main input).fault.isSome = true ↔ n = 0) ∧
      (n ≠ 0 → (main input).fault = none ∧
        ∃ q : Int, divInt (Calculate n initWorld).1 n = .ok q ∧
          (main input).world.stdout =
            "Magic positive number is The meaning of Life is " ++ toString q ++ "\n") := by
  by_cases hn : n = 0
  · subst hn
    rw [main_of_zero input (Or.inr h)]
    refine ⟨⟨fun _ => rfl, fun _ => ⟨rfl, by decide⟩⟩, ⟨fun _ => rfl, fun _ => rfl⟩, ?_⟩
    intro h0
    exact absurd rfl h0
  · rw [main_of_nonzero input n h hn]
    refine ⟨⟨fun hf => ?_, fun h0 => absurd h0 hn⟩, ⟨fun hf => ?_, fun h0 => absurd h0 hn⟩, ?_⟩
    · exact absurd hf.1 (by simp)
    · exact absurd hf (by simp)
    · intro _
      exact ⟨rfl, _, divInt_Calculate n initWorld hn, rfl⟩

theorem main_fault_iff_zero_witness :
    scanInt "0".toList = some 0 ∧
      ((((main "0".toList).fault = some Fault.divisionByZero ∧
          (main "0".toList).world.stdout =
            "Magic positive number is The meaning of Life is ") ↔ (0 : Int) = 0) ∧
        ((main "0".toList).fault.isSome = true ↔ (0 : Int) = 0) ∧
        ((0 : Int) ≠ 0 → (main "0".toList).fault = none ∧
          ∃ q : Int, divInt (Calculate 0 initWorld).1 0 = .ok q ∧
            (main "0".toList).world.stdout =
              "Magic positive number is The meaning of Life is " ++ toString q ++ "\n")) :=
  ⟨by decide, main_fault_iff_zero "0".toList 0 (by decide)⟩

/-- C6, as stated, fails on the input `abc`: nothing is converted, and the
run ends in the division-by-zero fault, not in an input error. -/
theorem main_abc_divisionByZero :
    scanInt "abc".toList = none ∧
      (main "abc".toList).fault = some Fault.divisionByZero ∧
      (main "abc".toList).fault ≠ some Fault.inputError := by
  have h : scanInt "abc".toList = none := by decide
  rw [main_of_zero _ (Or.inl h)]
  exact ⟨h, rfl, by decide⟩

/-- C6 (amended): for every input text that does not begin (after optional
white space) with a decimal integer, the failed read goes unnoticed, `N`
keeps its initial value `0`, and the driver ends in the division-by-zero
fault of `Calculate(0) / 0`, having written the two prompts and no integer. -/
theorem main_of_failed_read (input : List Char) (h : scanInt input = none) :
    (main input).fault = some Fault.divisionByZero ∧
      (main input).world.N = 0 ∧
      (main input).world.stdout = "Magic positive number is The meaning of Life is " := by
  rw [main_of_zero input (Or.inl h)]
  exact ⟨rfl, rfl, by decide⟩

theorem main_of_failed_read_witness :
    scanInt "".toList = none ∧
      ((main "".toList).fault = some Fault.divisionByZero ∧
        (main "".toList).world.N = 0 ∧
        (main "".toList).world.stdout =
          "Magic positive number is The meaning of Life is ") :=
  ⟨by decide, main_of_failed_read "".toList (by decide)⟩

/-! ## `Calculate` and the world -/

/-- C7: a call `Calculate(cnt)` leaves the global `N` and the output as they
were, returns an `int` value for every `cnt` (there is no error outcome),
and that value is the same whatever the world, in particular whatever `N`. -/
theorem Calculate_pure (cnt : Int) (w w' : World) :
    (Calculate cnt w).2.N = w.N ∧ (Calculate cnt w).2.stdout = w.stdout ∧
      (∃ v : Int, InRange v ∧ Calculate cnt w = (v, w)) ∧
      (Calculate cnt w).1 = (Calculate cnt w').1 := by
  have hw : (Calculate cnt w).2 = w := Calculate_snd cnt w
  refine ⟨by rw [hw], by rw [hw], ⟨(Calculate cnt w).1, ?_, Prod.ext rfl hw⟩, ?_⟩
  · exact whileLoop_res_inRange (entryFrame cnt w) inRange_zero
  · exact whileLoop_res_congr (entryFrame cnt w) (entryFrame cnt w') rfl rfl

/-! ## Iterations of the loop -/

/-- C8: for every `int` count `n` the loop of `Calculate(n)` terminates after
exactly `max(n, 0)` executions of its body: the guard holds before each of
the first `max(n, 0)` iterations and fails after them, the loop returns the
frame reached there, and `cnt` is a non-negative quantity that strictly
decreases at each iteration (in any frame where the guard holds). -/
theorem whileLoop_iterations (n : Int) (w : World) (hn : InRange n) :
    (∀ j : Nat, j < (max n 0).toNat → loopGuard (loopBody^[j] (entryFrame n w)) = true) ∧
      loopGuard (loopBody^[(max n 0).toNat] (entryFrame n w)) = false ∧
      whileLoop (entryFrame n w) = loopBody^[(max n 0).toNat] (entryFrame n w) ∧
      (∀ j : Nat, j < (max n 0).toNat →
        0 ≤ (loopBody^[j + 1] (entryFrame n w)).cnt ∧
          (loopBody^[j + 1] (entryFrame n w)).cnt < (loopBody^[j] (entryFrame n w)).cnt) ∧
      (∀ s : Frame, loopGuard s = true → (loopBody s).cnt.toNat < s.cnt.toNat) := by
  have hk : (max n 0).toNat = n.toNat := by omega
  have hw : whileLoop (entryFrame n w) = loopBody^[n.toNat] (entryFrame n w) :=
    whileLoop_eq_iterate (entryFrame n w) hn.2
  have hm : ∀ s : Frame, loopGuard s = true → (loopBody s).cnt.toNat < s.cnt.toNat := by
    intro s h
    simp only [loopGuard, decide_eq_true_eq] at h
    simp only [loopBody, subInt, wrap32]
    omega
  rw [hk]
  by_cases h0 : 0 ≤ n
  · have hit : ∀ j : Nat, j ≤ n.toNat →
        loopBody^[j] (entryFrame n w) = { world := w, res := wrap32 (42 * j), cnt := n - j } :=
      fun j hj => entryFrame_iterate n w j (by omega) hn.2
    refine ⟨fun j hj => ?_, ?_, hw, fun j hj => ?_, hm⟩
    · rw [hit j (by omega)]
      simp only [loopGuard, decide_eq_true_eq]
      omega
    · rw [hit n.toNat (le_refl _)]
      simp only [loopGuard, decide_eq_false_iff_not]
      omega
    · rw [hit j (by omega), hit (j + 1) (by omega)]
      constructor
      · show 0 ≤ n - ((j + 1 : Nat) : Int)
        omega
      · show n - ((j + 1 : Nat) : Int) < n - (j : Int)
        omega
  · have hz : n.toNat = 0 := by omega
    rw [hz]
    refine ⟨fun j hj => absurd hj (Nat.not_lt_zero j), ?_, ?_, fun j hj => absurd hj (Nat.not_lt_zero j), hm⟩
    · simp only [Function.iterate_zero, id_eq, loopGuard, entryFrame, decide_eq_false_iff_not]
      omega
    · rw [hw, hz]

theorem whileLoop_iterations_witness :
    InRange 3 ∧
      ((∀ j : Nat, j < (max (3 : Int) 0).toNat →
          loopGuard (loopBody^[j] (entryFrame 3 initWorld)) = true) ∧
        loopGuard (loopBody^[(max (3 : Int) 0).toNat] (entryFrame 3 initWorld)) = false ∧
        whileLoop (entryFrame 3 initWorld) =
          loopBody^[(max (3 : Int) 0).toNat] (entryFrame 3 initWorld) ∧
        (∀ j : Nat, j < (max (3 : Int) 0).toNat →
          0 ≤ (loopBody^[j + 1] (entryFrame 3 initWorld)).cnt ∧
            (loopBody^[j + 1] (entryFrame 3 initWorld)).cnt <
              (loopBody^[j] (entryFrame 3 initWorld)).cnt) ∧
        (∀ s : Frame, loopGuard s = true → (loopBody s).cnt.toNat < s.cnt.toNat)) :=
  ⟨by decide, whileLoop_iterations 3 initWorld (by decide)⟩

/-! ## The loop invariant -/

/-- C9, as stated, fails for the non-negative `int` 51130564: the frame the
loop ends in, after 51130564 iterations, has `res = -2147483608` and
`cnt = 0`, so `res + 42 * cnt` is not `42 * 51130564`. -/
theorem loopInv_fails_51130564 :
    (0 : Int) ≤ 51130564 ∧ InRange 51130564 ∧
      whileLoop (entryFrame 51130564 initWorld) =
        { world := initWorld, res := -2147483608, cnt := 0 } ∧
      loopBody^[51130564] (entryFrame 51130564 initWorld) =
        { world := initWorld, res := -2147483608, cnt := 0 } ∧
      ¬ loopInv 51130564 (loopBody^[51130564] (entryFrame 51130564 initWorld)) := by
  have hit : loopBody^[51130564] (entryFrame 51130564 initWorld) =
      { world := initWorld, res := -2147483608, cnt := 0 } := by
    rw [entryFrame_iterate 51130564 initWorld 51130564 (by decide) (by decide)]
    decide
  have hw : whileLoop (entryFrame 51130564 initWorld) =
      loopBody^[51130564] (entryFrame 51130564 initWorld) :=
    whileLoop_eq_iterate (entryFrame 51130564 initWorld) (by decide)
  refine ⟨by decide, by decide, ?_, hit, ?_⟩
  · rw [hw, hit]
  · rw [hit]
    decide

/-- C9 (amended): for every initial count `n` with `0 ≤ n ≤ 51130563`, the
invariant `res + 42 * cnt = 42 * n` and `0 ≤ cnt ≤ n` holds at loop entry, is
kept by every iteration (which adds exactly 42 to `res`), and so holds after
each of the `n` iterations, where after `k` iterations `res = 42 * k`. -/
theorem loopInv_holds (n : Int) (w : World) (h0 : 0 ≤ n) (h1 : n ≤ 51130563) :
    loopInv n (entryFrame n w) ∧
      (∀ s : Frame, loopInv n s → loopGuard s = true →
        loopInv n (loopBody s) ∧ (loopBody s).res = s.res + 42) ∧
      (∀ k : Nat, (k : Int) ≤ n →
        loopInv n (loopBody^[k] (entryFrame n w)) ∧
          (loopBody^[k] (entryFrame n w)).res = 42 * k) := by
  refine ⟨?_, ?_, ?_⟩
  · simp only [loopInv, entryFrame]
    omega
  · intro s hs hg
    simp only [loopGuard, decide_eq_true_eq] at hg
    simp only [loopInv] at hs
    obtain ⟨hs1, hs2, hs3⟩ := hs
    have hc : (loopBody s).cnt = s.cnt - 1 :=
      loopBody_cnt s hg (by unfold INT_MAX; omega)
    have hr : (loopBody s).res = s.res + 42 := by
      simp only [loopBody, addInt]
      apply wrap32_of_inRange
      unfold InRange INT_MIN INT_MAX; omega
    refine ⟨?_, hr⟩
    simp only [loopInv, hc, hr]
    omega
  · intro k hk
    rw [entryFrame_iterate n w k hk (by unfold INT_MAX; omega)]
    have hr : wrap32 (42 * (k : Int)) = 42 * k := by
      apply wrap32_of_inRange
      unfold InRange INT_MIN INT_MAX; omega
    simp only [loopInv, hr, and_true]
    omega

theorem loopInv_holds_witness :
    (0 : Int) ≤ 3 ∧ (3 : Int) ≤ 51130563 ∧
      (loopInv 3 (entryFrame 3 initWorld) ∧
        (∀ s : Frame, loopInv 3 s → loopGuard s = true →
          loopInv 3 (loopBody s) ∧ (loopBody s).res = s.res + 42) ∧
        (∀ k : Nat, (k : Int) ≤ 3 →
          loopInv 3 (loopBody^[k] (entryFrame 3 initWorld)) ∧
            (loopBody^[k] (entryFrame 3 initWorld)).res = 42 * k)) :=
  ⟨by decide, by decide, loopInv_holds 3 initWorld (by decide) (by decide)⟩

/-! ## Absence of overflow -/

/-- C10: with `int` a signed 32-bit integer and `0 ≤ n ≤ INT_MAX`, no addition
in `Calculate(n)` overflows exactly when `n ≤ 51130563`; for such `n` every
value the accumulator takes is the exact `42 * j`, inside `[0, 2147483647]`,
and the result is the mathematical `42 * n`; for larger `n` the result is
not `42 * n`, since already `42 * 51130564 = 2147483688` exceeds `INT_MAX`. -/
theorem Calculate_overflowFree_iff (n : Int) (w : World) (h0 : 0 ≤ n) (h1 : n ≤ INT_MAX) :
    (overflowFree n w ↔ n ≤ 51130563) ∧
      (n ≤ 51130563 →
        (∀ j : Nat, (j : Int) ≤ n →
          (loopBody^[j] (entryFrame n w)).res = 42 * j ∧
            0 ≤ (loopBody^[j] (entryFrame n w)).res ∧
            (loopBody^[j] (entryFrame n w)).res ≤ 2147483647) ∧
          (Calculate n w).1 = 42 * n) ∧
      (51130563 < n → (Calculate n w).1 ≠ 42 * n) ∧
      (42 : Int) * 51130564 = 2147483688 ∧ INT_MAX < 42 * 51130564 := by
  have hit : ∀ j : Nat, (j : Int) ≤ n → (j : Int) ≤ 51130563 →
      (loopBody^[j] (entryFrame n w)).res = 42 * j := by
    intro j hj hj2
    rw [entryFrame_iterate n w j hj h1]
    show wrap32 (42 * (j : Int)) = 42 * j
    apply wrap32_of_inRange
    unfold InRange INT_MIN INT_MAX; omega
  refine ⟨⟨fun hfree => ?_, fun hle j hj => ?_⟩, fun hle => ⟨fun j hj => ?_, ?_⟩,
    fun hgt => ?_, by decide, by decide⟩
  · by_contra hgt
    have hlt : 51130563 < n.toNat := by omega
    have hov := hfree 51130563 hlt
    rw [hit 51130563 (by omega) (by decide)] at hov
    revert hov
    decide
  · have hjn : (j : Int) < n := by omega
    rw [hit j (by omega) (by omega)]
    simp only [addOverflows, Bool.or_eq_false_iff, decide_eq_false_iff_not]
    unfold INT_MIN INT_MAX
    omega
  · have hr := hit j hj (by omega)
    rw [hr]
    omega
  · exact Calculate_fst_exact n w h0 hle
  · intro heq
    have hr : InRange (Calculate n w).1 := whileLoop_res_inRange (entryFrame n w) inRange_zero
    rw [heq] at hr
    unfold InRange INT_MAX at hr
    omega

theorem Calculate_overflowFree_iff_witness :
    (0 : Int) ≤ 51130563 ∧ (51130563 : Int) ≤ INT_MAX ∧
      ((overflowFree 51130563 initWorld ↔ (51130563 : Int) ≤ 51130563) ∧
        ((51130563 : Int) ≤ 51130563 →
          (∀ j : Nat, (j : Int) ≤ 51130563 →
            (loopBody^[j] (entryFrame 51130563 initWorld)).res = 42 * j ∧
              0 ≤ (loopBody^[j] (entryFrame 51130563 initWorld)).res ∧
              (loopBody^[j] (entryFrame 51130563 initWorld)).res ≤ 2147483647) ∧
            (Calculate 51130563 initWorld).1 = 42 * 51130563) ∧
        ((51130563 : Int) < 51130563 → (Calculate 51130563 initWorld).1 ≠ 42 * 51130563) ∧
        (42 : Int) * 51130564 = 2147483688 ∧ INT_MAX < 42 * 51130564) :=
  ⟨by decide, by decide, Calculate_overflowFree_iff 51130563 initWorld (by decide) (by decide)⟩

/-! ## A failed read -/

/-- C11: when the conversion fails, `read(N)` leaves the world as it was, so
`N` still has its initial value `0` at the division; the driver then
evaluates `Calculate(0) / 0`, a division by zero, and its whole run (both
prompts written, the division-by-zero fault, no integer written) is the same
as its run on the input `0`. -/
theorem main_failed_read_eq_main_zero (input : List Char) (h : scanInt input = none) :
    initWorld.N = 0 ∧
      (∀ w : World, readN input w = w) ∧
      (printf prompt2 (readN input (printf prompt1 initWorld))).N = 0 ∧
      (∀ w : World, divInt (Calculate 0 w).1 0 = .error Fault.divisionByZero) ∧
      main input = main "0".toList ∧
      main "0".toList =
        { world := { N := 0, stdout := "Magic positive number is The meaning of Life is " },
          fault := some Fault.divisionByZero } := by
  have hz : scanInt "0".toList = some 0 := by decide
  have hr : ∀ w : World, readN input w = w := fun w => by
    simp only [readN, h]
  refine ⟨rfl, hr, ?_, fun w => ?_, ?_, ?_⟩
  · rw [hr]
    rfl
  · simp only [divInt, if_true]
  · rw [main_of_zero input (Or.inl h), main_of_zero "0".toList (Or.inr hz)]
  · rw [main_of_zero "0".toList (Or.inr hz)]
    decide

theorem main_failed_read_eq_main_zero_witness :
    scanInt "x1".toList = none ∧
      (initWorld.N = 0 ∧
        (∀ w : World, readN "x1".toList w = w) ∧
        (printf prompt2 (readN "x1".toList (printf prompt1 initWorld))).N = 0 ∧
        (∀ w : World, divInt (Calculate 0 w).1 0 = .error Fault.divisionByZero) ∧
        main "x1".toList = main "0".toList ∧
        main "0".toList =
          { world := { N := 0, stdout := "Magic positive number is The meaning of Life is " },
            fault := some Fault.divisionByZero }) :=
  ⟨by decide, main_failed_read_eq_main_zero "x1".toList (by decide)⟩

/-! ## Exactness of the division -/

/-- C12: for every positive `n` in the no-overflow range (`n ≤ 51130563`),
`Calculate(n)` is an exact multiple of `n`: the C remainder
`Calculate(n) % n` is `0`, the guarded division succeeds, and
`(Calculate(n) / n) * n = Calculate(n)`. -/
theorem Calculate_tdiv_exact (n : Int) (w : World) (h0 : 0 < n) (h1 : n ≤ 51130563) :
    Int.tmod (Calculate n w).1 n = 0 ∧
      (Calculate n w).1 % n = 0 ∧
      divInt (Calculate n w).1 n = .ok (Int.tdiv (Calculate n w).1 n) ∧
      Int.tdiv (Calculate n w).1 n * n = (Calculate n w).1 := by
  have hn : n ≠ 0 := by omega
  have hc : (Calculate n w).1 = 42 * n := Calculate_fst_exact n w (by omega) h1
  have hd := divInt_Calculate n w hn
  rw [hc] at hd ⊢
  refine ⟨Int.mul_tmod_left 42 n, Int.mul_emod_left 42 n, hd, ?_⟩
  rw [Int.mul_tdiv_cancel 42 hn]

theorem Calculate_tdiv_exact_witness :
    (0 : Int) < 7 ∧ (7 : Int) ≤ 51130563 ∧
      (Int.tmod (Calculate 7 initWorld).1 7 = 0 ∧
        (Calculate 7 initWorld).1 % 7 = 0 ∧
        divInt (Calculate 7 initWorld).1 7 = .ok (Int.tdiv (Calculate 7 initWorld).1 7) ∧
        Int.tdiv (Calculate 7 initWorld).1 7 * 7 = (Calculate 7 initWorld).1) :=
  ⟨by decide, by decide, Calculate_tdiv_exact 7 initWorld (by decide) (by decide)⟩

end MeaningOfLife
